import Mathlib

/-!
# Verification of the `my-globe` camera/geometry/easing core

A shallow embedding, in Lean 4, of the computational core of `src/App.tsx`
(easing engine, longitude shortest-path delta, camera animation sessions,
spherical centroid, region classifier, fade controller, URL-parameter
statistics), together with theorems settling the specification's claims.

Numbers that the source manipulates as IEEE doubles are modelled as exact
rationals (`ℚ`) where the code is pure arithmetic, and as real numbers (`ℝ`)
where the code uses trigonometric functions. JavaScript while-loops are
modelled with an explicit fuel parameter; termination is then the statement
that past an explicit bound more fuel never changes the result.
-/

namespace Globe

/-! ## Easing engine (`cubicBezier` in the source)

The source defines, for control points `(x1, y1, x2, y2)`:

    const ax = 3*x1 - 3*x2 + 1, bx = -6*x1 + 3*x2, cx = 3*x1
    sampleX(t) = ((ax*t + bx)*t + cx)*t      (same shape for y)
    slopeX(t)  = (3*ax*t + 2*bx)*t + cx

`solveX` runs at most 8 Newton iterations and then a bisection while-loop.
-/

def NEWTON_ITER : ℕ := 8

def NEWTON_EPS : ℚ := 1 / 1000000

def SUBDIV_EPS : ℚ := 1 / 10000000

/-- `ax` coefficient of the bezier component with control values `u1, u2`. -/
def coefA (u1 u2 : ℚ) : ℚ := 3 * u1 - 3 * u2 + 1

/-- `bx` coefficient. -/
def coefB (u1 u2 : ℚ) : ℚ := -6 * u1 + 3 * u2

/-- `cx` coefficient. -/
def coefC (u1 : ℚ) : ℚ := 3 * u1

/-- `sampleX` / `sampleY` of the source: Horner evaluation of the bezier
component polynomial `((a*t + b)*t + c)*t`. -/
def sampleX (u1 u2 t : ℚ) : ℚ := ((coefA u1 u2 * t + coefB u1 u2) * t + coefC u1) * t

/-- `slopeX` of the source: `(3*ax*t + 2*bx)*t + cx`. -/
def slopeX (u1 u2 t : ℚ) : ℚ := (3 * coefA u1 u2 * t + 2 * coefB u1 u2) * t + coefC u1

/-- The Newton phase of `solveX`: at most `i` iterations, each stepping
`t -= (sampleX(t) - x) / slopeX(t)`, breaking when the slope magnitude
drops below `NEWTON_EPS`. -/
def newtonLoop (x1 x2 x : ℚ) : ℕ → ℚ → ℚ
  | 0, t => t
  | i + 1, t =>
    let s := slopeX x1 x2 t
    if |s| < NEWTON_EPS then t
    else newtonLoop x1 x2 x i (t - (sampleX x1 x2 t - x) / s)

/-- The bisection while-loop of `solveX`, with explicit fuel.  One step of the
source loop `while (t0 < t1) { xEst := sampleX t; return t if close; move a
bracket end to t; t := midpoint; break if bracket narrower than SUBDIV_EPS }`.
Fuel `0` returns the current `t` (never reached for adequate fuel, see
`bisectLoop_fuel_irrelevant`). -/
def bisectLoop (x1 x2 x : ℚ) : ℕ → ℚ → ℚ → ℚ → ℚ
  | 0, _, _, t => t
  | fuel + 1, t0, t1, t =>
    if t0 < t1 then
      if |sampleX x1 x2 t - x| < SUBDIV_EPS then t
      else
        let t0' := if x > sampleX x1 x2 t then t else t0
        let t1' := if x > sampleX x1 x2 t then t1 else t
        let t' := (t0' + t1') / 2
        if t1' - t0' < SUBDIV_EPS then t'
        else bisectLoop x1 x2 x fuel t0' t1' t'
    else t

/-- `solveX` of the source: Newton phase then bisection on the bracket
`[0, 1]`, starting from the Newton output. -/
def solveX (x1 x2 : ℚ) (fuel : ℕ) (x : ℚ) : ℚ :=
  bisectLoop x1 x2 x fuel 0 1 (newtonLoop x1 x2 x NEWTON_ITER x)

/-- `cubicBezier(x1,y1,x2,y2)` applied to `x`: the returned ease function
clamps `x` to `[0,1]`, inverts the x-component, and evaluates the
y-component. -/
def cubicBezier (x1 y1 x2 y2 : ℚ) (fuel : ℕ) (x : ℚ) : ℚ :=
  let t := solveX x1 x2 fuel (min (max x 0) 1)
  ((coefA y1 y2 * t + coefB y1 y2) * t + coefC y1) * t

/-! ## Longitude shortest-path delta (`animatePOV`, lines 378–380) -/

/-- The longitude delta computed by `animatePOV`:
`dLng := to.lng - from.lng; if (dLng > 180) dLng -= 360; if (dLng < -180) dLng += 360`. -/
def shortestDeltaLng (fromLng toLng : ℚ) : ℚ :=
  let d := toLng - fromLng
  let d' := if d > 180 then d - 360 else d
  if d' < -180 then d' + 360 else d'

/-! ## Basic facts about the easing engine -/

theorem sampleX_zero (u1 u2 : ℚ) : sampleX u1 u2 0 = 0 := by
  simp [sampleX]

theorem sampleX_one (u1 u2 : ℚ) : sampleX u1 u2 1 = 1 := by
  simp only [sampleX, coefA, coefB, coefC]; ring

/-- If `t` already solves `sampleX t = x`, the Newton phase leaves `t` fixed:
either the slope test breaks out, or the Newton step `t - (x - x)/s` is `t`. -/
theorem newtonLoop_fixed (x1 x2 x t : ℚ) (hx : sampleX x1 x2 t = x) :
    ∀ n, newtonLoop x1 x2 x n t = t := by
  intro n
  induction n with
  | zero => rfl
  | succ n ih =>
    simp only [newtonLoop]
    split
    · rfl
    · rw [hx]; simpa using ih

/-- If `t` already solves `sampleX t = x`, the bisection loop returns `t`
immediately (the in-tolerance test fires on the first pass), for every fuel. -/
theorem bisectLoop_at_solution (x1 x2 x t : ℚ) (hx : sampleX x1 x2 t = x) :
    ∀ fuel t0 t1, bisectLoop x1 x2 x fuel t0 t1 t = t := by
  intro fuel t0 t1
  cases fuel with
  | zero => rfl
  | succ n =>
    simp only [bisectLoop]
    split
    · rw [hx, sub_self, abs_zero, if_pos (by norm_num [SUBDIV_EPS])]
    · rfl

/-- C3: for every four control-point coordinates `(x1,y1,x2,y2)` (and every
fuel for the bisection loop), the ease function returned by `cubicBezier`
satisfies `ease 0` within `1e-4` of `0` and `ease 1` within `1e-4` of `1`
(in exact arithmetic both hold exactly). -/
theorem C3_ease_endpoints (x1 y1 x2 y2 : ℚ) (fuel : ℕ) :
    |cubicBezier x1 y1 x2 y2 fuel 0 - 0| ≤ 1 / 10000 ∧
    |cubicBezier x1 y1 x2 y2 fuel 1 - 1| ≤ 1 / 10000 := by
  have h0 : cubicBezier x1 y1 x2 y2 fuel 0 = 0 := by
    unfold cubicBezier solveX
    have hc : min (max (0 : ℚ) 0) 1 = 0 := by norm_num
    rw [hc, newtonLoop_fixed x1 x2 0 0 (sampleX_zero x1 x2),
        bisectLoop_at_solution x1 x2 0 0 (sampleX_zero x1 x2)]
    ring
  have h1 : cubicBezier x1 y1 x2 y2 fuel 1 = 1 := by
    unfold cubicBezier solveX
    have hc : min (max (1 : ℚ) 0) 1 = 1 := by norm_num
    rw [hc, newtonLoop_fixed x1 x2 1 1 (sampleX_one x1 x2),
        bisectLoop_at_solution x1 x2 1 1 (sampleX_one x1 x2)]
    simp only [coefA, coefB, coefC]; ring
  rw [h0, h1]
  norm_num

/-! ## C2: the longitude delta -/

/-- C2 counterexample: animating from `lng = 170` to `lng = -170` computes the
delta `+20`, not `-20` as the claim states (the raw delta is `-340`, below
`-180`, so `360` is added). -/
theorem C2_counterexample :
    shortestDeltaLng 170 (-170) = 20 ∧ ¬ shortestDeltaLng 170 (-170) = -20 := by
  constructor
  · norm_num [shortestDeltaLng]
  · norm_num [shortestDeltaLng]

/-- C2 (amended): `animatePOV` computes the longitude delta as shortest-path:
raw delta above `180` has `360` subtracted, raw delta below `-180` has `360`
added, otherwise it is kept; in particular animating from `lng = 170` to
`lng = -170` uses the delta `+20` (not `+340` and not `-20`), so the
interpolated longitude passes through `180` (at eased progress `1/2`). -/
theorem C2_shortest_path_delta (fromLng toLng : ℚ) :
    (toLng - fromLng > 180 → shortestDeltaLng fromLng toLng = toLng - fromLng - 360) ∧
    (toLng - fromLng < -180 → shortestDeltaLng fromLng toLng = toLng - fromLng + 360) ∧
    (-180 ≤ toLng - fromLng → toLng - fromLng ≤ 180 →
      shortestDeltaLng fromLng toLng = toLng - fromLng) ∧
    shortestDeltaLng 170 (-170) = 20 ∧
    170 + shortestDeltaLng 170 (-170) * (1 / 2) = 180 := by
  refine ⟨?_, ?_, ?_, ?_, ?_⟩
  · intro h
    simp only [shortestDeltaLng]
    rw [if_pos h, if_neg (by linarith)]
  · intro h
    simp only [shortestDeltaLng]
    rw [if_neg (show ¬ toLng - fromLng > 180 by linarith), if_pos h]
  · intro h1 h2
    simp only [shortestDeltaLng]
    rw [if_neg (show ¬ toLng - fromLng > 180 by linarith),
        if_neg (show ¬ toLng - fromLng < -180 by linarith)]
  · norm_num [shortestDeltaLng]
  · norm_num [shortestDeltaLng]

/-- Closed witness for `C2_shortest_path_delta`: at raw delta `200` the delta
becomes `-160`, at raw delta `-340` it becomes `20`, and a small raw delta
`-20` is kept. -/
theorem C2_shortest_path_delta_witness :
    shortestDeltaLng 0 200 = 200 - 0 - 360 ∧ shortestDeltaLng 170 (-170) = 20 ∧
    shortestDeltaLng 10 (-10) = -10 - 10 :=
  ⟨(C2_shortest_path_delta 0 200).1 (by norm_num),
   (C2_shortest_path_delta 170 (-170)).2.2.2.1,
   (C2_shortest_path_delta 10 (-10)).2.2.1 (by norm_num) (by norm_num)⟩

/-! ## C1: camera animation sessions and the frame-callback race

`animatePOV` (source lines 374–389) samples the current POV, computes the
longitude delta, and schedules a `step` callback via `requestAnimationFrame`;
each `step` writes the interpolated POV and re-schedules itself while
`p < 1`.  Crucially, `animatePOV` never calls `cancelAnimationFrame`, so a
second call adds a second session without removing the first.  Frame
callbacks run in registration order, which the fold below reproduces. -/

structure POV where
  lat : ℚ
  lng : ℚ
  altitude : ℚ
deriving DecidableEq

/-- One in-flight `animatePOV` session: the sampled start POV (`from` in the
source), the target, the precomputed longitude delta, start time `t0`,
duration `ms`, and the easing function. -/
structure Session where
  src : POV
  tgt : POV
  dLng : ℚ
  t0 : ℚ
  ms : ℚ
  easing : ℚ → ℚ

/-- The POV written by one `step` callback of a session at frame time `now`:
`p = min(1, (now - t0)/ms)`, `e = easing(p)`, linear interpolation of
lat/altitude and `from.lng + dLng * e` for longitude. -/
def stepWrite (s : Session) (now : ℚ) : POV :=
  let p := min 1 ((now - s.t0) / s.ms)
  let e := s.easing p
  { lat := s.src.lat + (s.tgt.lat - s.src.lat) * e
    lng := s.src.lng + s.dLng * e
    altitude := s.src.altitude + (s.tgt.altitude - s.src.altitude) * e }

/-- Whether the session re-schedules itself after the write (`p < 1`). -/
def stepActive (s : Session) (now : ℚ) : Prop := min 1 ((now - s.t0) / s.ms) < 1

instance (s : Session) (now : ℚ) : Decidable (stepActive s now) :=
  inferInstanceAs (Decidable (min 1 ((now - s.t0) / s.ms) < 1))

/-- The shared camera POV plus the list of pending frame callbacks, in
registration order. -/
structure AnimState where
  pov : POV
  sessions : List Session

/-- One rendering frame at time `now`: every pending callback runs in
registration order, each writing the POV (last write wins) and re-scheduling
itself iff `p < 1`. -/
def runFrame (st : AnimState) (now : ℚ) : AnimState :=
  st.sessions.foldl
    (fun acc s =>
      { pov := stepWrite s now
        sessions := acc.sessions ++ (if stepActive s now then [s] else []) })
    { pov := st.pov, sessions := ([] : List Session) }

/-- Run the rendering loop over a list of frame times. -/
def runFrames (st : AnimState) (times : List ℚ) : AnimState :=
  times.foldl runFrame st

/-- `animatePOV(to, ms, easing)` called at time `now`: samples the current
POV, computes the shortest-path longitude delta, and appends a new session —
without cancelling any session already scheduled. -/
def animatePOV (st : AnimState) (tgt : POV) (ms : ℚ) (easing : ℚ → ℚ) (now : ℚ) : AnimState :=
  { pov := st.pov
    sessions := st.sessions ++
      [{ src := st.pov, tgt := tgt, dLng := shortestDeltaLng st.pov.lng tgt.lng
         t0 := now, ms := ms, easing := easing }] }

theorem runFrames_nil (st : AnimState) : runFrames st [] = st := rfl

theorem runFrames_cons (st : AnimState) (t : ℚ) (ts : List ℚ) :
    runFrames st (t :: ts) = runFrames (runFrame st t) ts := rfl

theorem runFrames_append (st : AnimState) (l1 l2 : List ℚ) :
    runFrames st (l1 ++ l2) = runFrames (runFrames st l1) l2 :=
  List.foldl_append ..

theorem runFrame_no_sessions (p : POV) (now : ℚ) :
    runFrame ⟨p, []⟩ now = ⟨p, []⟩ := rfl

/-- With no pending session the POV rests where it is. -/
theorem runFrames_no_sessions (p : POV) (ts : List ℚ) :
    runFrames ⟨p, []⟩ ts = ⟨p, []⟩ := by
  induction ts with
  | nil => rfl
  | cons t ts ih => rw [runFrames_cons]; exact ih

theorem runFrame_pair (p : POV) (s1 s2 : Session) (now : ℚ) :
    runFrame ⟨p, [s1, s2]⟩ now =
      ⟨stepWrite s2 now,
       (if stepActive s1 now then [s1] else []) ++
         (if stepActive s2 now then [s2] else [])⟩ := by
  simp [runFrame]

theorem runFrame_single (p : POV) (s : Session) (now : ℚ) :
    runFrame ⟨p, [s]⟩ now =
      ⟨stepWrite s now, if stepActive s now then [s] else []⟩ := by
  simp [runFrame]

/-- For positive duration, a session stays scheduled exactly while `now` is
before its end time `t0 + ms`. -/
theorem stepActive_iff (s : Session) (now : ℚ) (h : 0 < s.ms) :
    stepActive s now ↔ now < s.t0 + s.ms := by
  unfold stepActive
  rw [min_lt_iff]
  constructor
  · rintro (h1 | h2)
    · linarith
    · rw [div_lt_one h] at h2; linarith
  · intro hlt
    right
    rw [div_lt_one h]
    linarith

/-- At or after its end time, a session with `easing 1 = 1` writes its final
resting value: target lat/altitude and `from.lng + dLng`. -/
theorem stepWrite_done (s : Session) (now : ℚ) (hms : 0 < s.ms)
    (hnow : s.t0 + s.ms ≤ now) (he : s.easing 1 = 1) :
    stepWrite s now = ⟨s.tgt.lat, s.src.lng + s.dLng, s.tgt.altitude⟩ := by
  unfold stepWrite
  have hp : min 1 ((now - s.t0) / s.ms) = 1 := by
    apply min_eq_left
    rw [one_le_div hms]
    linarith
  rw [hp]
  simp only [he, POV.mk.injEq]
  refine ⟨by ring, by ring, by ring⟩

/-- C1 counterexample: starting from POV `(0,0,1)`, a first `animatePOV` to
`(10,20,1)` over `100` ms at time `0`, then a second `animatePOV` to
`(50,60,1)` over `10` ms also at time `0` (before the first completes).  The
second call leaves both callbacks scheduled (no invalidation), and after
frames at times `10, 50, 100, 150` the shorter second session has long since
finished, the first session keeps driving, and the final resting POV is the
FIRST call's target `(10,20,1)` — refuting both parts of the claim. -/
theorem C1_counterexample :
    ((animatePOV (animatePOV ⟨⟨0, 0, 1⟩, []⟩ ⟨10, 20, 1⟩ 100 (fun q => q) 0)
        ⟨50, 60, 1⟩ 10 (fun q => q) 0).sessions.length = 2) ∧
    (runFrames
        (animatePOV (animatePOV ⟨⟨0, 0, 1⟩, []⟩ ⟨10, 20, 1⟩ 100 (fun q => q) 0)
          ⟨50, 60, 1⟩ 10 (fun q => q) 0)
        [10, 50, 100, 150]).pov = ⟨10, 20, 1⟩ ∧
    (runFrames
        (animatePOV (animatePOV ⟨⟨0, 0, 1⟩, []⟩ ⟨10, 20, 1⟩ 100 (fun q => q) 0)
          ⟨50, 60, 1⟩ 10 (fun q => q) 0)
        [10, 50, 100, 150]).sessions = [] := by
  refine ⟨rfl, ?_, ?_⟩ <;>
    norm_num [animatePOV, shortestDeltaLng, runFrames_cons, runFrames_nil,
      runFrame_pair, runFrame_single, runFrame_no_sessions, stepActive, stepWrite,
      min_def]

/-- C1 (amended): `animatePOV` does NOT invalidate the first session's
pending frame callback — both sessions keep writing the shared POV each
frame, later-registered last.  The second call's target is the final resting
POV exactly when the second session ends no earlier than the first: if
`s1.t0 + s1.ms ≤ s2.t0 + s2.ms`, all frames before some frame `tf` past the
second session's end precede that end, then after `tf` (and any further
frames) the POV rests at the second session's final value (target
lat/altitude; longitude `from.lng + dLng`, i.e. the target longitude up to
the ±360 shortest-path wrap).  When the first session outlasts the second,
the first call's target can be the final resting POV
(`C1_counterexample`). -/
theorem C1_last_wins (pov0 : POV) (s1 s2 : Session) (pre post : List ℚ) (tf : ℚ)
    (hms1 : 0 < s1.ms) (hms2 : 0 < s2.ms)
    (hord : s1.t0 + s1.ms ≤ s2.t0 + s2.ms)
    (hease : s2.easing 1 = 1)
    (hpre : ∀ t ∈ pre, t < s2.t0 + s2.ms)
    (htf : s2.t0 + s2.ms ≤ tf) :
    (runFrames ⟨pov0, [s1, s2]⟩ (pre ++ tf :: post)).pov =
      ⟨s2.tgt.lat, s2.src.lng + s2.dLng, s2.tgt.altitude⟩ := by
  have hinv : ∀ (l : List ℚ), (∀ t ∈ l, t < s2.t0 + s2.ms) → ∀ (p : POV),
      (∃ p', runFrames ⟨p, [s1, s2]⟩ l = ⟨p', [s1, s2]⟩ ∨
             runFrames ⟨p, [s1, s2]⟩ l = ⟨p', [s2]⟩) ∧
      (∃ p', runFrames ⟨p, [s2]⟩ l = ⟨p', [s2]⟩) := by
    intro l
    induction l with
    | nil => intro _ p; exact ⟨⟨p, Or.inl rfl⟩, ⟨p, rfl⟩⟩
    | cons t ts ih =>
      intro hl p
      have hts : ∀ u ∈ ts, u < s2.t0 + s2.ms :=
        fun u hu => hl u (List.mem_cons_of_mem _ hu)
      have ha2 : stepActive s2 t :=
        (stepActive_iff s2 t hms2).mpr (hl t (List.mem_cons_self _ _))
      constructor
      · rw [runFrames_cons, runFrame_pair, if_pos ha2]
        by_cases h1 : stepActive s1 t
        · rw [if_pos h1]
          exact (ih hts (stepWrite s2 t)).1
        · rw [if_neg h1]
          obtain ⟨p', hp'⟩ := (ih hts (stepWrite s2 t)).2
          exact ⟨p', Or.inr hp'⟩
      · rw [runFrames_cons, runFrame_single, if_pos ha2]
        exact (ih hts (stepWrite s2 t)).2
  rw [runFrames_append]
  have hna1 : ¬ stepActive s1 tf := by
    rw [stepActive_iff s1 tf hms1]
    push_neg
    linarith
  have hna2 : ¬ stepActive s2 tf := by
    rw [stepActive_iff s2 tf hms2]
    push_neg
    linarith
  have hdone := stepWrite_done s2 tf hms2 htf hease
  obtain ⟨⟨p', hp'⟩, _⟩ := hinv pre hpre pov0
  rcases hp' with hp' | hp' <;>
    rw [runFrames_cons, hp']
  · rw [runFrame_pair, if_neg hna1, if_neg hna2, hdone]
    rw [show (([] : List Session) ++ []) = ([] : List Session) from rfl]
    rw [runFrames_no_sessions]
  · rw [runFrame_single, if_neg hna2, hdone, runFrames_no_sessions]

/-- Closed witness for `C1_last_wins`: when the second session (duration
`100`, started at `0`) outlasts the first (duration `10`), frames at
`10, 50` then `100` and `150` leave the POV at the second session's final
value. -/
theorem C1_last_wins_witness :
    (runFrames
        ⟨⟨0, 0, 1⟩,
         [⟨⟨0, 0, 1⟩, ⟨10, 20, 1⟩, 20, 0, 10, fun q => q⟩,
          ⟨⟨0, 0, 1⟩, ⟨50, 60, 1⟩, 60, 0, 100, fun q => q⟩]⟩
        ([10, 50] ++ 100 :: [150])).pov = ⟨50, 0 + 60, 1⟩ :=
  C1_last_wins ⟨0, 0, 1⟩
    ⟨⟨0, 0, 1⟩, ⟨10, 20, 1⟩, 20, 0, 10, fun q => q⟩
    ⟨⟨0, 0, 1⟩, ⟨50, 60, 1⟩, 60, 0, 100, fun q => q⟩
    [10, 50] [150] 100 (by norm_num) (by norm_num) (by norm_num) rfl
    (by intro t ht; rcases List.mem_pair.mp ht with rfl | rfl <;> norm_num)
    (by norm_num)

/-! ## C9: the bisection loop of `solveX` terminates

The while-loop is modelled with fuel; termination is the statement that past
an explicit, computable bound more fuel never changes the result.  After the
first pass the running `t` is always the midpoint of the bracket, so the
bracket width halves each pass. -/

/-- One unfolding of the bisection loop (`let`s inlined). -/
theorem bisectLoop_succ (x1 x2 x : ℚ) (fuel : ℕ) (t0 t1 t : ℚ) :
    bisectLoop x1 x2 x (fuel + 1) t0 t1 t =
      if t0 < t1 then
        if |sampleX x1 x2 t - x| < SUBDIV_EPS then t
        else
          if (if x > sampleX x1 x2 t then t1 else t) -
              (if x > sampleX x1 x2 t then t else t0) < SUBDIV_EPS then
            ((if x > sampleX x1 x2 t then t else t0) +
              (if x > sampleX x1 x2 t then t1 else t)) / 2
          else
            bisectLoop x1 x2 x fuel
              (if x > sampleX x1 x2 t then t else t0)
              (if x > sampleX x1 x2 t then t1 else t)
              (((if x > sampleX x1 x2 t then t else t0) +
                (if x > sampleX x1 x2 t then t1 else t)) / 2)
      else t := rfl

/-- Once the running `t` is the bracket midpoint and the bracket is narrower
than `SUBDIV_EPS * 2 ^ n`, fuel `n + 1` already suffices: any extra fuel
gives the same answer. -/
theorem bisectLoop_fuel_irrelevant (x1 x2 x : ℚ) :
    ∀ (n : ℕ) (t0 t1 t : ℚ) (k : ℕ), t = (t0 + t1) / 2 →
      t1 - t0 < SUBDIV_EPS * 2 ^ n →
      bisectLoop x1 x2 x (k + n + 1) t0 t1 t = bisectLoop x1 x2 x (n + 1) t0 t1 t := by
  have heps : (0 : ℚ) < SUBDIV_EPS := by norm_num [SUBDIV_EPS]
  intro n
  induction n with
  | zero =>
    intro t0 t1 t k ht hw
    rw [pow_zero, mul_one] at hw
    rw [bisectLoop_succ, bisectLoop_succ]
    by_cases h01 : t0 < t1
    · simp only [if_pos h01]
      by_cases hcl : |sampleX x1 x2 t - x| < SUBDIV_EPS
      · simp only [if_pos hcl]
      · simp only [if_neg hcl]
        by_cases hgt : x > sampleX x1 x2 t
        · have hbr : t1 - t < SUBDIV_EPS := by rw [ht]; linarith
          simp only [if_pos hgt, if_pos hbr]
        · have hbr : t - t0 < SUBDIV_EPS := by rw [ht]; linarith
          simp only [if_neg hgt, if_pos hbr]
    · simp only [if_neg h01]
  | succ n ih =>
    intro t0 t1 t k ht hw
    rw [bisectLoop_succ, bisectLoop_succ]
    by_cases h01 : t0 < t1
    · simp only [if_pos h01]
      by_cases hcl : |sampleX x1 x2 t - x| < SUBDIV_EPS
      · simp only [if_pos hcl]
      · simp only [if_neg hcl]
        have hpow : SUBDIV_EPS * 2 ^ (n + 1) = SUBDIV_EPS * 2 ^ n * 2 := by ring
        by_cases hgt : x > sampleX x1 x2 t
        · simp only [if_pos hgt]
          by_cases hbr : t1 - t < SUBDIV_EPS
          · simp only [if_pos hbr]
          · simp only [if_neg hbr]
            exact ih t t1 ((t + t1) / 2) k rfl (by rw [ht] at *; linarith [hw, hpow])
        · simp only [if_neg hgt]
          by_cases hbr : t - t0 < SUBDIV_EPS
          · simp only [if_pos hbr]
          · simp only [if_neg hbr]
            exact ih t0 t ((t0 + t) / 2) k rfl (by rw [ht] at *; linarith [hw, hpow])
    · simp only [if_neg h01]

/-- A computable bound on the bisection fuel `solveX` needs at input `x`:
two passes plus one halving per factor of `SUBDIV_EPS` in the width of the
bracket produced by the first pass (which moves one end to the Newton
output). -/
def solveXBound (x1 x2 x : ℚ) : ℕ :=
  (Int.ceil ((if x > sampleX x1 x2 (newtonLoop x1 x2 x NEWTON_ITER x) then
      1 - newtonLoop x1 x2 x NEWTON_ITER x
    else newtonLoop x1 x2 x NEWTON_ITER x) / SUBDIV_EPS)).toNat + 2

/-- A width at least `SUBDIV_EPS` is below `SUBDIV_EPS * 2 ^ ceil(w / SUBDIV_EPS)`. -/
theorem width_lt_eps_pow (w : ℚ) (hwge : SUBDIV_EPS ≤ w) :
    w < SUBDIV_EPS * 2 ^ (Int.ceil (w / SUBDIV_EPS)).toNat := by
  have heps : (0 : ℚ) < SUBDIV_EPS := by norm_num [SUBDIV_EPS]
  have hc0 : (0 : ℤ) ≤ Int.ceil (w / SUBDIV_EPS) :=
    Int.ceil_nonneg (div_nonneg (by linarith) (le_of_lt heps))
  have h2 : (((Int.ceil (w / SUBDIV_EPS)).toNat : ℕ) : ℚ) =
      ((Int.ceil (w / SUBDIV_EPS) : ℤ) : ℚ) := by
    exact_mod_cast Int.toNat_of_nonneg hc0
  have h1 : w / SUBDIV_EPS ≤ (((Int.ceil (w / SUBDIV_EPS)).toNat : ℕ) : ℚ) := by
    rw [h2]; exact Int.le_ceil _
  have h3 : (((Int.ceil (w / SUBDIV_EPS)).toNat : ℕ) : ℚ) <
      2 ^ (Int.ceil (w / SUBDIV_EPS)).toNat := by
    exact_mod_cast Nat.lt_two_pow ((Int.ceil (w / SUBDIV_EPS)).toNat)
  have h4 : w / SUBDIV_EPS < 2 ^ (Int.ceil (w / SUBDIV_EPS)).toNat :=
    lt_of_le_of_lt h1 h3
  have h5 := (div_lt_iff₀ heps).mp h4
  linarith

/-- C9: the ease function returned by `cubicBezier` is total — the Newton
phase is a fixed 8 iterations and the bisection while-loop stabilizes within
the computable fuel bound `solveXBound`: giving `solveX` any fuel at least
`solveXBound x1 x2 x` produces the same value, i.e. the loop has returned
(within epsilon, by bracket collapse, or by halving the bracket below
`1e-7`) before the fuel runs out. -/
theorem C9_solveX_total (x1 x2 x : ℚ) (m : ℕ) (hm : solveXBound x1 x2 x ≤ m) :
    solveX x1 x2 m x = solveX x1 x2 (solveXBound x1 x2 x) x := by
  obtain ⟨j, hj⟩ := Nat.exists_eq_add_of_le hm
  subst hj
  unfold solveX solveXBound
  set tN := newtonLoop x1 x2 x NEWTON_ITER x with htN
  set b : ℕ :=
    (Int.ceil ((if x > sampleX x1 x2 tN then 1 - tN else tN) / SUBDIV_EPS)).toNat
    with hb
  have hsh1 : b + 2 + j = (b + j + 1) + 1 := by omega
  have hsh2 : b + 2 = (b + 1) + 1 := by omega
  rw [hsh1, hsh2]
  conv_lhs => rw [bisectLoop_succ]
  conv_rhs => rw [bisectLoop_succ]
  simp only [if_pos (show (0 : ℚ) < 1 by norm_num)]
  by_cases hcl : |sampleX x1 x2 tN - x| < SUBDIV_EPS
  · simp only [if_pos hcl]
  · simp only [if_neg hcl]
    by_cases hgt : x > sampleX x1 x2 tN
    · simp only [if_pos hgt]
      by_cases hbr : (1 : ℚ) - tN < SUBDIV_EPS
      · simp only [if_pos hbr]
      · simp only [if_neg hbr]
        have hw : (1 : ℚ) - tN < SUBDIV_EPS * 2 ^ b := by
          have hkey := width_lt_eps_pow (1 - tN) (not_lt.mp hbr)
          rw [hb, if_pos hgt]
          exact hkey
        have hcomm : b + j + 1 = j + b + 1 := by omega
        rw [hcomm]
        exact bisectLoop_fuel_irrelevant x1 x2 x b tN 1 ((tN + 1) / 2) j rfl hw
    · simp only [if_neg hgt]
      by_cases hbr : tN - 0 < SUBDIV_EPS
      · simp only [if_pos hbr]
      · simp only [if_neg hbr]
        have hw : tN - 0 < SUBDIV_EPS * 2 ^ b := by
          have hkey := width_lt_eps_pow tN (by linarith [not_lt.mp hbr])
          rw [hb, if_neg hgt]
          linarith
        have hcomm : b + j + 1 = j + b + 1 := by omega
        rw [hcomm]
        exact bisectLoop_fuel_irrelevant x1 x2 x b 0 tN ((0 + tN) / 2) j rfl hw

/-- Closed witness for `C9_solveX_total`: for the degenerate control points
`x1 = x2 = 0` at input `0` the bound evaluates to `2`, and fuel `5` gives
the same answer as the bound. -/
theorem C9_solveX_total_witness :
    solveX 0 0 5 0 = solveX 0 0 (solveXBound 0 0 0) 0 :=
  C9_solveX_total 0 0 0 5 (by
    unfold solveXBound
    rw [newtonLoop_fixed 0 0 0 0 (sampleX_zero 0 0), sampleX_zero]
    norm_num)

/-! ## Region classifier (`GROUPS`, `norm`, `getFeatISO3`, `getFeatName`,
`groupId` — source lines 119–175)

Strings are modelled over their character lists.  JavaScript's
`toLowerCase`/`toUpperCase` agree with the ASCII `Char.toLower`/`Char.toUpper`
on the ASCII data this component handles; `normalize('NFKD')` is the identity
on strings without decomposable characters and is modelled as such. -/

inductive Geometry
  | polygon (rings : List (List (ℝ × ℝ)))
  | multiPolygon (polys : List (List (List (ℝ × ℝ))))

/-- A GeoJSON feature: a geometry and a property bag. -/
structure Feature where
  geometry : Geometry
  properties : List (String × String)

inductive GroupKey
  | CAN | USA | GBR | CHN | AUS
deriving DecidableEq

/-- The `iso3` lists of the source's `GROUPS` record. -/
def groupIso3 : GroupKey → List String
  | .CAN => ["CAN"]
  | .USA => ["USA"]
  | .GBR => ["GBR"]
  | .CHN => ["CHN"]
  | .AUS => ["AUS"]

/-- The `names` alias lists of the source's `GROUPS` record. -/
def groupNames : GroupKey → List String
  | .CAN => ["Canada"]
  | .USA => ["United States of America", "United States", "USA"]
  | .GBR => ["United Kingdom", "United Kingdom of Great Britain and Northern Ireland",
             "Great Britain", "UK", "England", "Scotland", "Wales", "Northern Ireland"]
  | .CHN => ["China", "People\x27s Republic of China", "Peoples Republic of China"]
  | .AUS => ["Australia"]

/-- Key iteration order of the `GROUPS` object literal. -/
def GROUP_KEYS : List GroupKey := [.CAN, .USA, .GBR, .CHN, .AUS]

/-- Unicode combining marks `U+0300`–`U+036F`, stripped by `norm`. -/
def isCombiningMark (c : Char) : Bool := 0x300 ≤ c.toNat && c.toNat ≤ 0x36F

/-- Matches the character class `[a-z0-9]` of `norm`'s collapse regex. -/
def isLowerAlnum (c : Char) : Bool := ('a' ≤ c && c ≤ 'z') || ('0' ≤ c && c ≤ '9')

/-- Collapse runs of spaces to a single space (the effect of replacing
maximal `[^a-z0-9]+` runs by one space, after each such character has been
mapped to a space). -/
def squeezeSpaces : List Char → List Char
  | [] => []
  | [c] => [c]
  | c :: d :: cs =>
    if c = ' ' && d = ' ' then squeezeSpaces (d :: cs)
    else c :: squeezeSpaces (d :: cs)

/-- `trim`: drop leading and trailing spaces (after the collapse step every
whitespace character is a plain space). -/
def trimSpaces (l : List Char) : List Char :=
  ((l.dropWhile (fun c => c = ' ')).reverse.dropWhile (fun c => c = ' ')).reverse

/-- `norm` of the source: lowercase, NFKD (identity here), strip combining
marks, collapse non-`[a-z0-9]` runs to single spaces, trim. -/
def norm (s : String) : String :=
  String.mk (trimSpaces (squeezeSpaces
    (((s.data.map Char.toLower).filter (fun c => !(isCombiningMark c))).map
      (fun c => if isLowerAlnum c then c else ' '))))

/-- JavaScript `toUpperCase` (ASCII). -/
def jsToUpper (s : String) : String := String.mk (s.data.map Char.toUpper)

/-- JavaScript `a || b` on possibly-missing strings: `a` wins unless it is
absent or empty (falsy). -/
def jsOr (a : Option String) (b : Option String) : Option String :=
  match a with
  | some s => if s = "" then b else some s
  | none => b

/-- Property-bag access `f?.properties ?? {}` followed by a key read. -/
def getProp (f : Feature) (k : String) : Option String :=
  f.properties.lookup k

/-- `getFeatISO3`: the `||`-chain over the alternate ISO-code property keys. -/
def getFeatISO3 (f : Feature) : Option String :=
  jsOr (getProp f ("ISO_A3")) (jsOr (getProp f ("iso_a3")) (jsOr (getProp f ("ADM0_A3"))
    (jsOr (getProp f ("adm0_a3")) (jsOr (getProp f ("SOV_A3")) (jsOr (getProp f ("sov_a3"))
    (jsOr (getProp f ("WB_A3")) (jsOr (getProp f ("wb_a3")) (jsOr (getProp f ("GU_A3"))
    (jsOr (getProp f ("gu_a3")) (jsOr (getProp f ("SU_A3")) (jsOr (getProp f ("su_a3"))
    (jsOr (getProp f ("A3")) (getProp f ("a3"))))))))))))))

/-- `getFeatName`: the `||`-chain over the alternate name property keys. -/
def getFeatName (f : Feature) : Option String :=
  jsOr (getProp f ("ADMIN")) (jsOr (getProp f ("admin")) (jsOr (getProp f ("NAME_LONG"))
    (jsOr (getProp f ("name_long")) (jsOr (getProp f ("NAME_EN")) (jsOr (getProp f ("name_en"))
    (jsOr (getProp f ("NAME")) (jsOr (getProp f ("name")) (jsOr (getProp f ("SOVEREIGNT"))
    (jsOr (getProp f ("sovereignt")) (jsOr (getProp f ("GEOUNIT")) (jsOr (getProp f ("geounit"))
    (jsOr (getProp f ("BRK_NAME")) (getProp f ("brk_name"))))))))))))))

/-- JavaScript `String.prototype.includes` (substring test). -/
def strIncludes (s pat : String) : Bool :=
  (List.range (s.data.length + 1)).any (fun i => pat.data.isPrefixOf (s.data.drop i))

/-- `groupId` of the source: first the ISO-3 loop, then the normalized-name
loop, then the United-Kingdom substring heuristic, else `null`. -/
def groupId (f : Feature) : Option GroupKey :=
  match GROUP_KEYS.find? (fun k =>
      (groupIso3 k).contains (jsToUpper ((getFeatISO3 f).getD ("")))) with
  | some k => some k
  | none =>
    match GROUP_KEYS.find? (fun k =>
        (groupNames k).any (fun nm => norm nm == norm ((getFeatName f).getD ("")))) with
    | some k => some k
    | none =>
      if strIncludes (norm ((getFeatName f).getD (""))) ("united kingdom") ||
          strIncludes (norm ((getFeatName f).getD (""))) ("great britain") then
        some GroupKey.GBR
      else none

/-! ### Spec-shaped classifier stages (for the ordering statement of C6) -/

/-- Stage 1 per the spec: exact ISO-3 match (upper-cased) against each
group's ISO list. -/
def isoMatch (f : Feature) : Option GroupKey :=
  GROUP_KEYS.find? (fun k => (groupIso3 k).contains (jsToUpper ((getFeatISO3 f).getD (""))))

/-- Stage 2 per the spec: normalized-name equality against each group's
alias list. -/
def nameMatch (f : Feature) : Option GroupKey :=
  GROUP_KEYS.find? (fun k =>
    (groupNames k).any (fun nm => norm nm == norm ((getFeatName f).getD (""))))

/-- Stage 3 per the spec: the "united kingdom" / "great britain" substring
heuristic. -/
def ukHeuristic (f : Feature) : Option GroupKey :=
  if strIncludes (norm ((getFeatName f).getD (""))) ("united kingdom") ||
      strIncludes (norm ((getFeatName f).getD (""))) ("great britain") then
    some GroupKey.GBR
  else none

def usaIsoFeat : Feature := ⟨Geometry.polygon [], [(("ISO_A3"), ("USA"))]⟩

def ukLongNameFeat : Feature :=
  ⟨Geometry.polygon [],
   [(("NAME"), ("United Kingdom of Great Britain and Northern Ireland"))]⟩

def ruritaniaFeat : Feature := ⟨Geometry.polygon [], [(("NAME"), ("Ruritania"))]⟩

/-- C6: `groupId` is exactly the ISO stage, then the name stage, then the
UK-substring heuristic, else unclassified; and on the three concrete
features of the claim it returns USA, GBR, and unclassified. -/
theorem C6_classifier_order :
    (∀ f : Feature, groupId f =
      Option.orElse (isoMatch f)
        (fun _ => Option.orElse (nameMatch f) (fun _ => ukHeuristic f))) ∧
    groupId usaIsoFeat = some GroupKey.USA ∧
    groupId ukLongNameFeat = some GroupKey.GBR ∧
    groupId ruritaniaFeat = none := by
  refine ⟨?_, rfl, rfl, rfl⟩
  intro f
  unfold groupId isoMatch nameMatch ukHeuristic
  cases GROUP_KEYS.find? (fun k => (groupIso3 k).contains (jsToUpper ((getFeatISO3 f).getD ("")))) with
  | some k => rfl
  | none =>
    cases GROUP_KEYS.find? (fun k =>
        (groupNames k).any (fun nm => norm nm == norm ((getFeatName f).getD ("")))) with
    | some k => rfl
    | none => rfl

def isoVariantFeat (s : String) : Feature := ⟨Geometry.polygon [], [(("ISO_A3"), s)]⟩

/-- C10: classification depends on the feature's ISO value only through its
upper-casing (and on the name only through `norm`); in particular the case
variants `usa`, `Usa`, `USA` of the ISO code all classify to the USA group. -/
theorem C10_iso_case_insensitive :
    (∀ f1 f2 : Feature,
      jsToUpper ((getFeatISO3 f1).getD ("")) = jsToUpper ((getFeatISO3 f2).getD ("")) →
      norm ((getFeatName f1).getD ("")) = norm ((getFeatName f2).getD ("")) →
      groupId f1 = groupId f2) ∧
    groupId (isoVariantFeat ("usa")) = some GroupKey.USA ∧
    groupId (isoVariantFeat ("Usa")) = some GroupKey.USA ∧
    groupId (isoVariantFeat ("USA")) = some GroupKey.USA := by
  refine ⟨?_, rfl, rfl, rfl⟩
  intro f1 f2 hiso hname
  unfold groupId
  rw [hiso, hname]

/-- Closed witness for `C10_iso_case_insensitive`: the lower-case ISO variant
classifies like the canonical upper-case one. -/
theorem C10_iso_case_insensitive_witness :
    groupId (isoVariantFeat ("usa")) = groupId (isoVariantFeat ("USA")) :=
  C10_iso_case_insensitive.1 (isoVariantFeat ("usa")) (isoVariantFeat ("USA")) rfl rfl

/-! ## C7: the eased fade controller (`startEasedFade`, source lines 391–402)

The scheduler side (pending `requestAnimationFrame` handles, the `fadeRAF`
ref) is modelled explicitly; the per-frame output follows `tick`. -/

structure FadeSession where
  t0 : ℚ
  t1 : ℚ

/-- Host-loop scheduling state: the `fadeRAF.current` ref, the set of
pending callback handles, and the next fresh handle. -/
structure FadeSchedState where
  fadeRAF : Option ℕ
  scheduled : List ℕ
  nextId : ℕ

/-- `cancelAnimationFrame(h)`: the pending callback with handle `h` is
removed. -/
def cancelFrame (st : FadeSchedState) (h : ℕ) : FadeSchedState :=
  { st with scheduled := st.scheduled.filter (fun x => x ≠ h) }

/-- The scheduler effect of `startEasedFade`: cancel the pending fade
callback if the ref holds one (JavaScript truthiness: `0`/`null` skip the
cancel), then schedule a fresh callback and store its handle in the ref. -/
def startEasedFadeSched (st : FadeSchedState) : FadeSchedState :=
  let st1 := match st.fadeRAF with
    | some h => if h = 0 then st else cancelFrame st h
    | none => st
  { st1 with
    scheduled := st1.scheduled ++ [st1.nextId]
    nextId := st1.nextId + 1
    fadeRAF := some st1.nextId }

/-- `startEasedFade(delayMs, durMs)` at time `now`: the scheduler effect plus
the session timing `t0 = now + delayMs`, `t1 = t0 + durMs`. -/
def startEasedFade (st : FadeSchedState) (now delayMs durMs : ℚ) :
    FadeSchedState × FadeSession :=
  (startEasedFadeSched st, ⟨now + delayMs, now + delayMs + durMs⟩)

/-- The scalar published by one `tick` at frame time `now`: `0` while
`now < t0`, else the easing of `min(1, (now - t0)/(t1 - t0))`.  The source
instantiates `easing` with `easeCB = cubicBezier(0.48, 0.2, 0.05, 0.99)`. -/
def fadeTick (easing : ℚ → ℚ) (s : FadeSession) (now : ℚ) : ℚ :=
  if now < s.t0 then 0
  else easing (min 1 ((now - s.t0) / (s.t1 - s.t0)))

/-- `clamp(q, lo, hi)` as the claim states it. -/
def clampQ (lo hi q : ℚ) : ℚ := min hi (max lo q)

/-- C7: a fade session outputs exactly `0` at every frame before
`startTime + delay`; from then on (for positive duration) it outputs the
easing of `clamp((now - (startTime + delay))/duration, 0, 1)`; and starting
a new fade session cancels the pending frame callback of the prior session
(for a genuine handle, distinct from the fresh one) before scheduling its
own, which becomes the ref's handle. -/
theorem C7_fade_controller (easing : ℚ → ℚ) (st : FadeSchedState)
    (now delayMs durMs t : ℚ) :
    (t < now + delayMs → fadeTick easing (startEasedFade st now delayMs durMs).2 t = 0) ∧
    (now + delayMs ≤ t → 0 < durMs →
      fadeTick easing (startEasedFade st now delayMs durMs).2 t =
        easing (clampQ 0 1 ((t - (now + delayMs)) / durMs))) ∧
    (∀ h : ℕ, st.fadeRAF = some h → h ≠ 0 → h ≠ st.nextId →
      h ∉ (startEasedFade st now delayMs durMs).1.scheduled) ∧
    (startEasedFade st now delayMs durMs).1.fadeRAF = some st.nextId ∧
    st.nextId ∈ (startEasedFade st now delayMs durMs).1.scheduled := by
  refine ⟨?_, ?_, ?_, ?_, ?_⟩
  · intro hlt
    simp only [startEasedFade, fadeTick]
    rw [if_pos hlt]
  · intro hge hdur
    simp only [startEasedFade, fadeTick, clampQ]
    rw [if_neg (not_lt.mpr hge),
        show now + delayMs + durMs - (now + delayMs) = durMs from by ring,
        max_eq_right (div_nonneg (by linarith) (le_of_lt hdur))]
  · intro h hraf h0 hne
    simp only [startEasedFade, startEasedFadeSched, hraf]
    rw [if_neg h0]
    simp [cancelFrame, hne]
  · simp only [startEasedFade, startEasedFadeSched]
    cases hraf : st.fadeRAF with
    | none => rfl
    | some h =>
      by_cases h0 : h = 0 <;> simp [h0, cancelFrame]
  · simp only [startEasedFade, startEasedFadeSched]
    cases hraf : st.fadeRAF with
    | none => simp
    | some h =>
      by_cases h0 : h = 0 <;> simp [h0, cancelFrame]

/-- Closed witness for `C7_fade_controller`: with a pending handle `5` and
fresh handle `6`, a fade started at `0` with delay `100` and duration `200`
outputs `0` at frame `50`, the eased clamped progress at frame `150`, and
handle `5` is no longer scheduled. -/
theorem C7_fade_controller_witness :
    fadeTick (fun q => q) (startEasedFade ⟨some 5, [5], 6⟩ 0 100 200).2 50 = 0 ∧
    fadeTick (fun q => q) (startEasedFade ⟨some 5, [5], 6⟩ 0 100 200).2 150 =
      (fun q => q) (clampQ 0 1 ((150 - (0 + 100)) / 200)) ∧
    5 ∉ (startEasedFade (⟨some 5, [5], 6⟩ : FadeSchedState) 0 100 200).1.scheduled :=
  ⟨(C7_fade_controller (fun q => q) ⟨some 5, [5], 6⟩ 0 100 200 50).1 (by norm_num),
   (C7_fade_controller (fun q => q) ⟨some 5, [5], 6⟩ 0 100 200 150).2.1
     (by norm_num) (by norm_num),
   (C7_fade_controller (fun q => q) ⟨some 5, [5], 6⟩ 0 100 200 150).2.2.1 5 rfl
     (by norm_num) (by norm_num)⟩

/-! ## C8: URL-parameter statistic overrides (`labelInfo`, source lines 440–454) -/

structure Stats where
  offices : ℤ
  employees : ℤ
deriving DecidableEq

/-- The source's `COUNTRY_STATS` record (keyed by both group code and
canonical name). -/
def COUNTRY_STATS : List (String × Stats) :=
  [(("CAN"), ⟨10, 1123⟩), (("Canada"), ⟨10, 1123⟩),
   (("USA"), ⟨6, 362⟩), (("United States of America"), ⟨6, 362⟩),
   (("GBR"), ⟨17, 765⟩), (("United Kingdom"), ⟨17, 765⟩),
   (("CHN"), ⟨3, 12⟩), (("China"), ⟨3, 12⟩),
   (("AUS"), ⟨11, 351⟩), (("Australia"), ⟨11, 351⟩)]

def groupKeyStr : GroupKey → String
  | .CAN => "CAN"
  | .USA => "USA"
  | .GBR => "GBR"
  | .CHN => "CHN"
  | .AUS => "AUS"

/-- The `canonicalName` record of `labelInfo`. -/
def canonicalName : GroupKey → String
  | .CAN => "Canada"
  | .USA => "United States of America"
  | .GBR => "United Kingdom"
  | .CHN => "China"
  | .AUS => "Australia"

def isJsWhitespace (c : Char) : Bool :=
  c = ' ' || c = '\t' || c = '\n' || c = '\r' || c.toNat = 11 || c.toNat = 12

def isDigitCh (c : Char) : Bool := '0' ≤ c && c ≤ '9'

/-- Value of the leading digit run, or `none` when there is no digit
(`parseInt` returns `NaN` then). -/
def digitsValue (l : List Char) : Option ℕ :=
  match l.takeWhile isDigitCh with
  | [] => none
  | ds => some (ds.foldl (fun a c => a * 10 + (c.toNat - 48)) 0)

/-- JavaScript `parseInt(s, 10)`: skip leading whitespace, optional sign,
then the leading digit run; `none` models `NaN`. -/
def jsParseInt10 (s : String) : Option ℤ :=
  match s.data.dropWhile isJsWhitespace with
  | '-' :: rest => (digitsValue rest).map (fun n => -(n : ℤ))
  | '+' :: rest => (digitsValue rest).map (fun n => (n : ℤ))
  | rest => (digitsValue rest).map (fun n => (n : ℤ))

/-- One displayed statistic: `param ? (parseInt(param, 10) || 0) : dflt`.
A `null` or empty parameter is falsy and keeps the default; a present
non-empty parameter is parsed, `NaN` collapsing to `0`. -/
def displayedStat (param : Option String) (dflt : ℤ) : ℤ :=
  match param with
  | none => dflt
  | some s =>
    if s = "" then dflt
    else
      match jsParseInt10 s with
      | none => 0
      | some n => n

/-- `defaultStats = COUNTRY_STATS[g] || COUNTRY_STATS[STATS_KEY] || {offices:0, employees:0}`. -/
def defaultStatsLookup (g : GroupKey) : Stats :=
  ((COUNTRY_STATS.lookup (groupKeyStr g)).orElse
    (fun _ => COUNTRY_STATS.lookup (canonicalName g))).getD ⟨0, 0⟩

/-- The `stats` object computed by `labelInfo` for the selected group. -/
def labelStats (g : GroupKey) (officesParam employeesParam : Option String) : Stats :=
  ⟨displayedStat officesParam (defaultStatsLookup g).offices,
   displayedStat employeesParam (defaultStatsLookup g).employees⟩

/-- The five groups' default statistics, per the spec. -/
def defaultStatsOf : GroupKey → Stats
  | .CAN => ⟨10, 1123⟩
  | .USA => ⟨6, 362⟩
  | .GBR => ⟨17, 765⟩
  | .CHN => ⟨3, 12⟩
  | .AUS => ⟨11, 351⟩

/-- C8 counterexample: the empty string does not parse as a number
(`parseInt("")` is `NaN`), yet with `?offices=` the displayed statistic for
USA is the default `6`, not `0` — the empty parameter is falsy, so the code
never reaches the `|| 0` fallback. -/
theorem C8_counterexample :
    jsParseInt10 ("") = none ∧
    (labelStats GroupKey.USA (some ("")) none).offices = 6 ∧
    ¬ (labelStats GroupKey.USA (some ("")) none).offices = 0 := by
  refine ⟨rfl, rfl, ?_⟩
  intro h
  rw [show (labelStats GroupKey.USA (some ("")) none).offices = 6 from rfl] at h
  exact absurd h (by norm_num)

/-- C8 (amended): for every selected group, a present, NON-EMPTY `offices`
or `employees` parameter string that does not parse as a number displays `0`
for that field (no parse error propagates); an absent parameter displays the
group's default statistic (an empty-string parameter is falsy and also
displays the default). -/
theorem C8_param_stats (g : GroupKey) :
    (∀ (s : String) (p2 : Option String), ¬ s = "" → jsParseInt10 s = none →
      (labelStats g (some s) p2).offices = 0) ∧
    (∀ (s : String) (p1 : Option String), ¬ s = "" → jsParseInt10 s = none →
      (labelStats g p1 (some s)).employees = 0) ∧
    labelStats g none none = defaultStatsOf g := by
  refine ⟨?_, ?_, ?_⟩
  · intro s p2 hne hparse
    simp only [labelStats, displayedStat]
    rw [if_neg hne, hparse]
  · intro s p1 hne hparse
    simp only [labelStats, displayedStat]
    rw [if_neg hne, hparse]
  · cases g <;> rfl

/-- Closed witness for `C8_param_stats`: non-numeric non-empty parameters
display `0`. -/
theorem C8_param_stats_witness :
    (labelStats GroupKey.USA (some ("abc")) none).offices = 0 ∧
    (labelStats GroupKey.CAN none (some ("xy"))).employees = 0 :=
  ⟨(C8_param_stats GroupKey.USA).1 ("abc") none (by decide) rfl,
   (C8_param_stats GroupKey.CAN).2.1 ("xy") none (by decide) rfl⟩

/-! ## C4: the spherical centroid (`sphericalCentroid`, source lines 628–648)

The float trigonometry of the source is modelled over `ℝ`; `Math.atan2(y, x)`
is `Complex.arg ⟨x, y⟩` (range `(-π, π]`, `0` at the origin, like
JavaScript), `Math.hypot` is `√(x² + y²)`. -/

noncomputable def atan2R (y x : ℝ) : ℝ := Complex.arg ⟨x, y⟩

noncomputable def hypotR (x y : ℝ) : ℝ := Real.sqrt (x ^ 2 + y ^ 2)

/-- `coords`: a Polygon's rings, or a MultiPolygon's `.flat()`. -/
def coordsOf (g : Geometry) : List (List (ℝ × ℝ)) :=
  match g with
  | .polygon rings => rings
  | .multiPolygon polys => polys.flatten

/-- The loop body of `sphericalCentroid`: one vertex `p = [lng, lat]` (in
degrees) accumulated into `(x, y, z, n)`. -/
noncomputable def accumVertex (a : ℝ × ℝ × ℝ × ℕ) (p : ℝ × ℝ) : ℝ × ℝ × ℝ × ℕ :=
  (a.1 + Real.cos (p.2 * Real.pi / 180) * Real.cos (p.1 * Real.pi / 180),
   a.2.1 + Real.cos (p.2 * Real.pi / 180) * Real.sin (p.1 * Real.pi / 180),
   a.2.2.1 + Real.sin (p.2 * Real.pi / 180),
   a.2.2.2 + 1)

/-- The accumulated `(x, y, z, n)` over every ring of every polygon. -/
noncomputable def centroidAccum (f : Feature) : ℝ × ℝ × ℝ × ℕ :=
  (coordsOf f.geometry).foldl (fun a ring => ring.foldl accumVertex a) (0, 0, 0, 0)

/-- The final longitude wrap: `if (lng > 180) lng -= 360; if (lng < -180) lng += 360`. -/
noncomputable def wrapLng (l : ℝ) : ℝ :=
  if (if l > 180 then l - 360 else l) < -180 then (if l > 180 then l - 360 else l) + 360
  else (if l > 180 then l - 360 else l)

/-- Mean vector back to `[lng, lat]` (degrees): `lat = atan2(z, hypot(x,y))`,
`lng = atan2(y, x)`, then the ±360 wrap on `lng`. -/
noncomputable def sphericalFromMean (x y z : ℝ) : ℝ × ℝ :=
  (wrapLng (atan2R y x * 180 / Real.pi), atan2R z (hypotR x y) * 180 / Real.pi)

/-- `sphericalCentroid` of the source: accumulate unit vectors over every
vertex of every ring, guard `n = 0`, divide by `n`, convert back. -/
noncomputable def sphericalCentroid (f : Feature) : ℝ × ℝ :=
  if (centroidAccum f).2.2.2 = 0 then (0, 0)
  else
    sphericalFromMean ((centroidAccum f).1 / ((centroidAccum f).2.2.2 : ℝ))
      ((centroidAccum f).2.1 / ((centroidAccum f).2.2.2 : ℝ))
      ((centroidAccum f).2.2.1 / ((centroidAccum f).2.2.2 : ℝ))

/-! ### The spec-shaped centroid: an unweighted mean over the flattened
vertex list -/

/-- The unit vector of one `[lng, lat]` vertex, per the spec:
`(cos lat · cos lng, cos lat · sin lng, sin lat)`. -/
noncomputable def vertexUnitVec (p : ℝ × ℝ) : ℝ × ℝ × ℝ :=
  (Real.cos (p.2 * Real.pi / 180) * Real.cos (p.1 * Real.pi / 180),
   Real.cos (p.2 * Real.pi / 180) * Real.sin (p.1 * Real.pi / 180),
   Real.sin (p.2 * Real.pi / 180))

/-- Every vertex across every ring (holes included, no weighting). -/
def vertexList (f : Feature) : List (ℝ × ℝ) := (coordsOf f.geometry).flatten

/-- The centroid computed the way the spec words it: map each vertex to its
unit vector, average componentwise over the vertex count, convert back via
atan2, guarding zero vertices. -/
noncomputable def sphericalCentroidSpec (f : Feature) : ℝ × ℝ :=
  if (vertexList f).length = 0 then (0, 0)
  else
    sphericalFromMean
      (((vertexList f).map (fun p => (vertexUnitVec p).1)).sum / ((vertexList f).length : ℝ))
      (((vertexList f).map (fun p => (vertexUnitVec p).2.1)).sum / ((vertexList f).length : ℝ))
      (((vertexList f).map (fun p => (vertexUnitVec p).2.2)).sum / ((vertexList f).length : ℝ))

theorem foldl_accumVertex (l : List (ℝ × ℝ)) :
    ∀ a : ℝ × ℝ × ℝ × ℕ, l.foldl accumVertex a =
      (a.1 + (l.map (fun p => (vertexUnitVec p).1)).sum,
       a.2.1 + (l.map (fun p => (vertexUnitVec p).2.1)).sum,
       a.2.2.1 + (l.map (fun p => (vertexUnitVec p).2.2)).sum,
       a.2.2.2 + l.length) := by
  induction l with
  | nil => intro a; simp
  | cons p ps ih =>
    intro a
    rw [List.foldl_cons, ih]
    simp only [accumVertex, vertexUnitVec, List.map_cons, List.sum_cons, List.length_cons,
      Prod.mk.injEq]
    refine ⟨by ring, by ring, by ring, by omega⟩

/-- The nested fold of the source equals componentwise sums over the
flattened vertex list. -/
theorem centroidAccum_eq (f : Feature) :
    centroidAccum f =
      (((vertexList f).map (fun p => (vertexUnitVec p).1)).sum,
       ((vertexList f).map (fun p => (vertexUnitVec p).2.1)).sum,
       ((vertexList f).map (fun p => (vertexUnitVec p).2.2)).sum,
       (vertexList f).length) := by
  unfold centroidAccum vertexList
  rw [← List.foldl_flatten, foldl_accumVertex]
  simp

theorem wrapLng_of_mem (l : ℝ) (h1 : -180 < l) (h2 : l ≤ 180) : wrapLng l = l := by
  unfold wrapLng
  rw [if_neg (show ¬ l > 180 by linarith), if_neg (show ¬ l < -180 by linarith)]

/-- `atan2` scaled to degrees lands in `(-180, 180]`. -/
theorem atan2_scaled_range (y x : ℝ) :
    -180 < atan2R y x * 180 / Real.pi ∧ atan2R y x * 180 / Real.pi ≤ 180 := by
  have hpi := Real.pi_pos
  obtain ⟨hlo, hhi⟩ := Complex.arg_mem_Ioc (⟨x, y⟩ : ℂ)
  unfold atan2R
  constructor
  · rw [lt_div_iff₀ hpi]
    nlinarith
  · rw [div_le_iff₀ hpi]
    nlinarith

/-- C4: `sphericalCentroid` computes exactly what the spec words say — the
unweighted mean of the per-vertex unit vectors over every ring including
holes, converted back through atan2 (`sphericalCentroidSpec`); zero vertices
give `(0°, 0°)`; and the returned longitude always lies in `(-180, 180]`
after the ±360 wrap. -/
theorem C4_spherical_centroid (f : Feature) :
    sphericalCentroid f = sphericalCentroidSpec f ∧
    ((vertexList f).length = 0 → sphericalCentroid f = (0, 0)) ∧
    (-180 < (sphericalCentroid f).1 ∧ (sphericalCentroid f).1 ≤ 180) := by
  have hrw : sphericalCentroid f = sphericalCentroidSpec f := by
    unfold sphericalCentroid sphericalCentroidSpec
    rw [centroidAccum_eq f]
  refine ⟨hrw, ?_, ?_⟩
  · intro hlen
    rw [hrw]
    unfold sphericalCentroidSpec
    rw [if_pos hlen]
  · rw [hrw]
    unfold sphericalCentroidSpec
    by_cases hlen : (vertexList f).length = 0
    · rw [if_pos hlen]
      norm_num
    · rw [if_neg hlen]
      unfold sphericalFromMean
      obtain ⟨hlo, hhi⟩ := atan2_scaled_range
        (((vertexList f).map (fun p => (vertexUnitVec p).2.1)).sum / ((vertexList f).length : ℝ))
        (((vertexList f).map (fun p => (vertexUnitVec p).1)).sum / ((vertexList f).length : ℝ))
      rw [show ∀ a b : ℝ, (Prod.mk a b).1 = a from fun a b => rfl]
      rw [wrapLng_of_mem _ hlo hhi]
      exact ⟨hlo, hhi⟩

/-- Closed witness for `C4_spherical_centroid`: a polygon with no vertices
yields `(0°, 0°)`. -/
theorem C4_spherical_centroid_witness :
    sphericalCentroid ⟨Geometry.polygon [], []⟩ = (0, 0) :=
  (C4_spherical_centroid ⟨Geometry.polygon [], []⟩).2.1 rfl

theorem centroidAccum_single (lng lat : ℝ) :
    centroidAccum ⟨Geometry.polygon [[(lng, lat)]], []⟩ =
      (Real.cos (lat * Real.pi / 180) * Real.cos (lng * Real.pi / 180),
       Real.cos (lat * Real.pi / 180) * Real.sin (lng * Real.pi / 180),
       Real.sin (lat * Real.pi / 180), 1) := by
  unfold centroidAccum coordsOf
  simp [accumVertex]

/-- On a single-vertex polygon the centroid is the converted-back unit
vector of that vertex. -/
theorem sphericalCentroid_single (lng lat : ℝ) :
    sphericalCentroid ⟨Geometry.polygon [[(lng, lat)]], []⟩ =
      sphericalFromMean
        (Real.cos (lat * Real.pi / 180) * Real.cos (lng * Real.pi / 180))
        (Real.cos (lat * Real.pi / 180) * Real.sin (lng * Real.pi / 180))
        (Real.sin (lat * Real.pi / 180)) := by
  unfold sphericalCentroid
  rw [centroidAccum_single]
  norm_num

/-! ### Supporting analysis: the single-vertex round trip

For latitudes strictly inside `(-90, 90)` the degrees → unit-vector →
degrees round trip of a single-vertex polygon is exact
(`sphericalCentroid_single_vertex_interior` below).  At the poles the
exact-real idealization and the IEEE-double program part ways: over `ℝ` the
mean vector at `lat = 90` is exactly `(0, 0, 1)` and `atan2(0, 0) = 0`
discards the longitude (`sphericalCentroid_pole_exact` below), whereas in
doubles `Math.cos(Math.PI/2)` is the nonzero rounding residual
`≈ 6.12e-17`, from which `atan2` still recovers the longitude, so the
program returns approximately the original vertex even at the poles.  The
pole behavior is therefore decided by floating-point rounding, which this
real-number embedding cannot express; the lemmas below document both the
interior case and the exact-model pole divergence. -/

/-- In the exact-real model, a single vertex at the north pole comes back
with longitude `0`: the mean vector is `(0, 0, 1)` and `atan2(0,0) = 0`.
The IEEE-double program does not share this behavior (see the section
comment above); this lemma documents the divergence of the idealization,
not a property of the program at the poles. -/
theorem sphericalCentroid_pole_exact :
    sphericalCentroid ⟨Geometry.polygon [[(50, 90)]], []⟩ = (0, 90) := by
  have hpi := Real.pi_pos
  rw [sphericalCentroid_single,
    show (90 : ℝ) * Real.pi / 180 = Real.pi / 2 from by ring,
    Real.cos_pi_div_two, Real.sin_pi_div_two]
  unfold sphericalFromMean
  have hzero : (⟨(0 : ℝ) * Real.cos ((50 : ℝ) * Real.pi / 180),
      (0 : ℝ) * Real.sin ((50 : ℝ) * Real.pi / 180)⟩ : ℂ) = 0 := by
    apply Complex.ext <;> simp
  have hlng0 : atan2R ((0 : ℝ) * Real.sin ((50 : ℝ) * Real.pi / 180))
      ((0 : ℝ) * Real.cos ((50 : ℝ) * Real.pi / 180)) = 0 := by
    unfold atan2R
    rw [hzero, Complex.arg_zero]
  have hhyp0 : hypotR ((0 : ℝ) * Real.cos ((50 : ℝ) * Real.pi / 180))
      ((0 : ℝ) * Real.sin ((50 : ℝ) * Real.pi / 180)) = 0 := by
    unfold hypotR
    norm_num
  have hlatI : atan2R 1 (0 : ℝ) = Real.pi / 2 := by
    unfold atan2R
    rw [show (⟨(0 : ℝ), (1 : ℝ)⟩ : ℂ) = Complex.I from Complex.ext (by simp) (by simp),
      Complex.arg_I]
  rw [hlng0, hhyp0, hlatI]
  rw [zero_mul, zero_div, wrapLng_of_mem 0 (by norm_num) (by norm_num)]
  have : Real.pi / 2 * 180 / Real.pi = 90 := by
    field_simp
    ring
  rw [this]

/-- For every single-vertex polygon with `lat` strictly inside `(-90, 90)`
and `lng ∈ (-180, 180]`, the degrees → unit-vector → degrees round trip of
`sphericalCentroid` returns exactly that vertex. -/
theorem sphericalCentroid_single_vertex_interior (lng lat : ℝ)
    (h1 : -90 < lat) (h2 : lat < 90) (h3 : -180 < lng) (h4 : lng ≤ 180) :
    sphericalCentroid ⟨Geometry.polygon [[(lng, lat)]], []⟩ = (lng, lat) := by
  have hpi := Real.pi_pos
  rw [sphericalCentroid_single]
  set L := lat * Real.pi / 180 with hL
  set G := lng * Real.pi / 180 with hG
  have hLmem : L ∈ Set.Ioo (-(Real.pi / 2)) (Real.pi / 2) := by
    constructor
    · rw [hL]; nlinarith
    · rw [hL]; nlinarith
  have hcos : 0 < Real.cos L := Real.cos_pos_of_mem_Ioo hLmem
  have hLIoc : L ∈ Set.Ioc (-Real.pi) Real.pi := by
    obtain ⟨ha, hb⟩ := hLmem
    exact ⟨by linarith, by linarith⟩
  have hGIoc : G ∈ Set.Ioc (-Real.pi) Real.pi := by
    constructor
    · rw [hG]; nlinarith
    · rw [hG]; nlinarith
  have hhyp : hypotR (Real.cos L * Real.cos G) (Real.cos L * Real.sin G) = Real.cos L := by
    unfold hypotR
    rw [show (Real.cos L * Real.cos G) ^ 2 + (Real.cos L * Real.sin G) ^ 2
          = Real.cos L ^ 2 * (Real.sin G ^ 2 + Real.cos G ^ 2) from by ring,
      Real.sin_sq_add_cos_sq, mul_one, Real.sqrt_sq (le_of_lt hcos)]
  have hlat : atan2R (Real.sin L) (Real.cos L) = L := by
    unfold atan2R
    rw [Complex.mk_eq_add_mul_I, Complex.ofReal_cos, Complex.ofReal_sin,
      Complex.arg_cos_add_sin_mul_I hLIoc]
  have hlng : atan2R (Real.cos L * Real.sin G) (Real.cos L * Real.cos G) = G := by
    unfold atan2R
    have hz : (⟨Real.cos L * Real.cos G, Real.cos L * Real.sin G⟩ : ℂ)
        = (Real.cos L : ℂ) * (Complex.cos G + Complex.sin G * Complex.I) := by
      rw [Complex.mk_eq_add_mul_I, ← Complex.ofReal_cos, ← Complex.ofReal_sin]
      push_cast
      ring
    rw [hz, Complex.arg_real_mul _ hcos, Complex.arg_cos_add_sin_mul_I hGIoc]
  unfold sphericalFromMean
  rw [hhyp, hlat, hlng]
  have hGback : G * 180 / Real.pi = lng := by
    rw [hG]
    field_simp
  have hLback : L * 180 / Real.pi = lat := by
    rw [hL]
    field_simp
  rw [hGback, hLback, wrapLng_of_mem lng h3 h4]

/-- The origin round-trips exactly (an instance of the interior lemma). -/
theorem sphericalCentroid_origin_roundtrip :
    sphericalCentroid ⟨Geometry.polygon [[(0, 0)]], []⟩ = (0, 0) :=
  sphericalCentroid_single_vertex_interior 0 0 (by norm_num) (by norm_num)
    (by norm_num) (by norm_num)

end Globe
